import Mathlib

/-!
# Verification of the keyword-match alerting pipeline

A shallow embedding of the alert-monitoring repository's core:
the text matcher (`findKeywordsInText`, `extractKeywordContexts` from
`app/api/lib/keywords.ts`), the watch-registry client
(`fetchLatestSnapshot` from `app/api/lib/changeDetection.ts`), the scan
orchestrator (`GET /api/alert/check`) and the per-recipient email
dispatch of `GET /api/alert/send-email`.

Strings are modelled as `List Char`; the JavaScript regular-expression
operations of the source are embedded as explicit scanning functions with
the same semantics on the concrete regexes the source builds.  Recursive
scanners take an explicit fuel argument (initialised to the input length,
which every scan step strictly decreases) so that all definitions are
structurally recursive and evaluate by kernel reduction.
-/

namespace AlertMonitoring

/-- JS `\s` restricted to the ASCII range: the whitespace characters
relevant to `replace(/\s+/g, " ")` and `trim()` in the source. -/
def isJsSpace (c : Char) : Bool :=
  c = ' ' || c = '\t' || c = '\n' || c = '\r' || c = '\x0b' || c = '\x0c'

/-- JS `\w` word characters `[A-Za-z0-9_]`, as used by the `\b`
word-boundary assertions in the source's regexes. -/
def isWordChar (c : Char) : Bool :=
  c.isAlpha || c.isDigit || c = '_'

/-- Per-character lower-casing, the ASCII behaviour of JS `toLowerCase()`. -/
def lowerStr (l : List Char) : List Char := l.map Char.toLower

/-- Scan for the first `>` and return the remainder after it, if any:
the continuation point after one match of the tag regex `/<[^>]*>/`. -/
def afterGt : List Char → Option (List Char)
  | [] => none
  | c :: rest => if c = '>' then some rest else afterGt rest

/-- Worker for `stripTags`; the fuel strictly exceeds the number of scan
steps, since each step consumes at least one character. -/
def stripTagsF : Nat → List Char → List Char
  | _, [] => []
  | 0, l => l
  | fuel + 1, c :: rest =>
    if c = '<' then
      match afterGt rest with
      | some after => ' ' :: stripTagsF fuel after
      | none => c :: rest
    else
      c :: stripTagsF fuel rest

/-- `text.replace(/<[^>]*>/g, " ")`: every maximal `<...>` span (up to the
first following `>`) becomes one space; a `<` with no later `>` is kept
verbatim, as is everything after it (no further match can exist there). -/
def stripTags (l : List Char) : List Char := stripTagsF l.length l

/-- `text.replace(/\s+/g, " ")`: every maximal run of whitespace becomes a
single space.  The flag records whether the previous character was part of
a run whose single space was already emitted. -/
def collapseWsAux : Bool → List Char → List Char
  | _, [] => []
  | inRun, c :: rest =>
    if isJsSpace c then
      if inRun then collapseWsAux true rest
      else ' ' :: collapseWsAux true rest
    else
      c :: collapseWsAux false rest

def collapseWs (l : List Char) : List Char := collapseWsAux false l

/-- JS `trim()`: drop leading and trailing whitespace. -/
def jsTrim (l : List Char) : List Char :=
  ((l.dropWhile isJsSpace).reverse.dropWhile isJsSpace).reverse

/-- Does `sub` occur as a literal contiguous run at position `i` of `text`? -/
def occursAt (sub text : List Char) (i : Nat) : Bool :=
  decide ((text.drop i).take sub.length = sub) && decide (i + sub.length ≤ text.length)

/-- JS `String.prototype.includes`: some position carries `sub`. -/
def containsSub (sub text : List Char) : Bool :=
  (List.range (text.length + 1)).any fun i => occursAt sub text i

/-- JS `String.prototype.indexOf` (as an `Option` instead of `-1`):
the first position carrying `sub`, if any. -/
def indexOfSub (sub text : List Char) : Option Nat :=
  (List.range (text.length + 1)).find? fun i => occursAt sub text i

/-- Is the character at position `i` of `text` a word character?
Out-of-range positions count as non-word, matching the regex engine's
treatment of the string edges. -/
def wordAt (text : List Char) (i : Nat) : Bool :=
  isWordChar (text.getD i ' ')

/-- JS `\b` at position `i` (between characters `i - 1` and `i`):
exactly one of the two sides is a word character. -/
def boundaryAt (text : List Char) (i : Nat) : Bool :=
  (decide (0 < i) && wordAt text (i - 1)) != wordAt text i

/-- Case-insensitive occurrence of `sub` at position `i` (the regex `i` flag). -/
def occursAtCI (sub text : List Char) (i : Nat) : Bool :=
  occursAt (lowerStr sub) (lowerStr text) i

/-- `new RegExp("\\b" + escapeRegExp(kw) + "\\b", "i").test(text)`: since
`escapeRegExp` makes `kw` literal, this is a case-insensitive occurrence
of `kw` flanked by word boundaries. -/
def wordBoundaryTest (kw text : List Char) : Bool :=
  (List.range (text.length + 1)).any fun i =>
    occursAtCI kw text i && boundaryAt text i && boundaryAt text (i + kw.length)

/-- `regex.exec(text)?.index` for the same regex: the first position of a
case-insensitive occurrence of `kw` flanked by word boundaries. -/
def wordBoundaryFind (kw text : List Char) : Option Nat :=
  (List.range (text.length + 1)).find? fun i =>
    occursAtCI kw text i && boundaryAt text i && boundaryAt text (i + kw.length)

/-- Does `l` start with `pre`, compared case-insensitively?
`pre` is supplied already lower-cased. -/
def startsWithCI (pre l : List Char) : Bool :=
  decide (lowerStr (l.take pre.length) = pre)

/-- Scan for the first case-insensitive occurrence of the closing tag
`close` and return the remainder after it.  For nonempty `close`,
`rest.drop (close.length - 1)` is exactly the input minus the occurrence. -/
def afterCloseTag (close : List Char) : List Char → Option (List Char)
  | [] => none
  | c :: rest =>
    if startsWithCI close (c :: rest) then some (rest.drop (close.length - 1))
    else afterCloseTag close rest

/-- Worker for `removeBlocks` with explicit fuel. -/
def removeBlocksF (openTag close : List Char) : Nat → List Char → List Char
  | _, [] => []
  | 0, l => l
  | fuel + 1, c :: rest =>
    if startsWithCI openTag (c :: rest) && !wordAt (c :: rest) openTag.length then
      match afterCloseTag close ((c :: rest).drop openTag.length) with
      | some after => ' ' :: removeBlocksF openTag close fuel after
      | none => c :: removeBlocksF openTag close fuel rest
    else
      c :: removeBlocksF openTag close fuel rest

/-- One of the source's block-removal replacements, e.g.
`/<script\b[^<]*(?:(?!<\/script>)<[^<]*)*<\/script>/gi` → `" "`:
each span from a case-insensitive `openTag` followed by a word boundary up
to (and including) the first subsequent case-insensitive `close` becomes a
single space; an opening with no closing tag stays. -/
def removeBlocks (openTag close l : List Char) : List Char :=
  removeBlocksF openTag close l.length l

/-- `KeywordInfo` from `app/api/lib/types/changeDetection.ts`:
`{ id: string; keyword: string; category: string | null }`. -/
structure KeywordInfo where
  id : String
  keyword : String
  category : Option String
deriving DecidableEq, Repr

/-- `KeywordMatch` from the same types file:
`{ keyword; keywordId; category; context; highlightedContext? }` —
the optional field is an `Option`, `none` when the source object omits it. -/
structure KeywordMatch where
  keyword : String
  keywordId : String
  category : Option String
  context : String
  highlightedContext : Option String
deriving DecidableEq, Repr

/-- The normalization inside `findKeywordsInText`:
`text.toLowerCase().replace(/<[^>]*>/g, " ").replace(/\s+/g, " ").trim()`.
Note that this pipeline does NOT remove the contents of `<script>` /
`<style>` blocks — only the tags themselves become spaces. -/
def normalizeForFind (text : List Char) : List Char :=
  jsTrim (collapseWs (stripTags (lowerStr text)))

/-- The filter predicate body of `findKeywordsInText`: skip empty keywords
(`!keywordObj.keyword`), then check `includes` and, failing that, the
word-boundary regex. -/
def keywordPresent (lowerCaseText : List Char) (keywordObj : KeywordInfo) : Bool :=
  if keywordObj.keyword = "" then false
  else
    let keywordLower := jsTrim (lowerStr keywordObj.keyword.toList)
    containsSub keywordLower lowerCaseText || wordBoundaryTest keywordLower lowerCaseText

/-- `findKeywordsInText` from `app/api/lib/keywords.ts` (the `!text` guard
is the empty-string test; the `typeof` guard is vacuous on `String`). -/
def findKeywordsInText (text : String) (keywords : List KeywordInfo) : List KeywordInfo :=
  if text = "" then []
  else
    let lowerCaseText := normalizeForFind text.toList
    keywords.filter (keywordPresent lowerCaseText)

def scriptOpen : List Char := "<script".toList
def scriptClose : List Char := "</script>".toList
def styleOpen : List Char := "<style".toList
def styleClose : List Char := "</style>".toList
def markOpen : List Char := "<mark>".toList
def markClose : List Char := "</mark>".toList

/-- The cleaning pipeline at the top of `extractKeywordContexts`:
remove `<script>` blocks, remove `<style>` blocks, strip remaining tags,
collapse whitespace, trim. -/
def cleanSnapshot (text : List Char) : List Char :=
  jsTrim (collapseWs (stripTags
    (removeBlocks styleOpen styleClose (removeBlocks scriptOpen scriptClose text))))

/-- Worker for `highlightKeyword` (nonempty keyword, given lower-cased):
wrap each leftmost, non-overlapping case-insensitive occurrence in
`<mark>…</mark>`, keeping the matched text's original case. -/
def highlightAuxF (kwLower : List Char) : Nat → List Char → List Char
  | _, [] => []
  | 0, l => l
  | fuel + 1, c :: rest =>
    if startsWithCI kwLower (c :: rest) then
      markOpen ++ (c :: rest).take kwLower.length ++ markClose ++
        highlightAuxF kwLower fuel ((c :: rest).drop kwLower.length)
    else
      c :: highlightAuxF kwLower fuel rest

/-- `context.replace(new RegExp(escapeRegExp(keyword), "gi"), m => "<mark>" + m + "</mark>")`.
An empty keyword's regex matches the empty string at every position, so
the marker pair is inserted between all characters (JS global-replace
semantics); a nonempty keyword scans left-to-right without overlap. -/
def highlightKeyword (kw text : List Char) : List Char :=
  match kw with
  | [] => markOpen ++ markClose ++
      text.foldr (fun c acc => c :: (markOpen ++ markClose ++ acc)) []
  | _ => highlightAuxF (lowerStr kw) text.length text

/-- The per-keyword body of the `map` in `extractKeywordContexts`:
`indexOf`, word-boundary fallback, defensive empty context when neither
finds the keyword, otherwise the 100-character window with `...` markers
and the highlighted variant. -/
def extractOne (cleanedText lowerCleanedText : List Char) (keywordObj : KeywordInfo) :
    KeywordMatch :=
  let keyword := keywordObj.keyword.toList
  let keywordLower := lowerStr keyword
  let keywordIndex :=
    match indexOfSub keywordLower lowerCleanedText with
    | some i => some i
    | none => wordBoundaryFind keywordLower lowerCleanedText
  match keywordIndex with
  | none =>
      { keyword := keywordObj.keyword, keywordId := keywordObj.id,
        category := keywordObj.category, context := "", highlightedContext := none }
  | some i =>
      let contextStart := i - 100
      let contextEnd := min cleanedText.length (i + keyword.length + 100)
      let context0 := (cleanedText.drop contextStart).take (contextEnd - contextStart)
      let context1 := if 0 < contextStart then "...".toList ++ context0 else context0
      let context := if contextEnd < cleanedText.length then context1 ++ "...".toList else context1
      { keyword := keywordObj.keyword, keywordId := keywordObj.id,
        category := keywordObj.category,
        context := String.mk context,
        highlightedContext := some (String.mk (highlightKeyword keyword context)) }

/-- `extractKeywordContexts` from `app/api/lib/keywords.ts`. -/
def extractKeywordContexts (snapshotText : String) (matchedKeywords : List KeywordInfo) :
    List KeywordMatch :=
  let cleanedText := cleanSnapshot snapshotText.toList
  let lowerCleanedText := lowerStr cleanedText
  matchedKeywords.map (extractOne cleanedText lowerCleanedText)

/-- The possible outcomes of the HTTP call inside `fetchLatestSnapshot`
(`GET {base}/api/v1/watch/{uuid}/history/latest?html=1`). -/
inductive SnapshotFetchOutcome where
  | success (body : String)
  /-- `!historyResponse.ok`: a non-success status, e.g. the registry's
  response when no snapshot exists yet for the watch. -/
  | httpError (status : Nat)
  /-- `fetch` rejected: network unreachable, DNS failure, timeout, … -/
  | networkFailure
deriving DecidableEq, Repr

/-- `fetchLatestSnapshot` from `app/api/lib/changeDetection.ts`, as a
function of the HTTP outcome: the body on success, `null` on a
non-success status, and `null` again when the fetch throws (the `catch`
branch logs and returns `null`). -/
def fetchLatestSnapshot : SnapshotFetchOutcome → Option String
  | .success body => some body
  | .httpError _ => none
  | .networkFailure => none

/-- `WatchInfo` from `app/api/lib/types/changeDetection.ts`.  The
`last_error: string | boolean` field is modelled by its JS truthiness
(`false`, `""` and absent are falsy), which is all the route inspects. -/
structure WatchInfo where
  url : String
  title : Option String
  last_checked : Option Int
  last_changed : Option Int
  last_error : Bool
deriving DecidableEq, Repr

/-- `WatchMatch` from the same types file.  The source renders
`lastChanged` as `new Date(last_changed * 1000).toISOString()`; we keep
the underlying timestamp (an injective function of the rendered string),
since no claim inspects the ISO text itself, and `none` models the
`null` produced when `last_changed` is falsy. -/
structure WatchMatch where
  watchId : String
  url : String
  title : String
  lastChanged : Option Int
  keywords : List KeywordMatch
deriving DecidableEq, Repr

/-- JS truthiness test on an optional number: absent and `0` are falsy
(`!watchInfo.last_changed`). -/
def jsFalsyTime : Option Int → Bool
  | none => true
  | some t => t = 0

/-- JS `a || b` on an optional string and a fallback: absent and `""` are
falsy (`watchInfo.title || watchInfo.url`). -/
def jsStrOr (a : Option String) (b : String) : String :=
  match a with
  | none => b
  | some s => if s = "" then b else s

/-- The body of the per-watch callback inside `Promise.all` in
`GET /api/alert/check` (route lines 82–117): recency skip, error skip,
snapshot fetch (`none` when the fetch failed or found no snapshot, the
only ways `fetchLatestSnapshot` yields `null`), falsy-snapshot skip,
keyword matching, and report construction. -/
def processWatch (keywords : List KeywordInfo) (checkRecent : Bool) (timeThreshold : Int)
    (snap : String → Option String) (uuid : String) (watchInfo : WatchInfo) :
    Option WatchMatch :=
  if checkRecent &&
      (jsFalsyTime watchInfo.last_changed ||
        decide (watchInfo.last_changed.getD 0 < timeThreshold)) then
    none
  else if watchInfo.last_error then
    none
  else
    match snap uuid with
    | none => none
    | some snapshotText =>
      if snapshotText = "" then none
      else
        let matchedKeywords := findKeywordsInText snapshotText keywords
        if 0 < matchedKeywords.length then
          some { watchId := uuid,
                 url := watchInfo.url,
                 title := jsStrOr watchInfo.title watchInfo.url,
                 lastChanged :=
                   if jsFalsyTime watchInfo.last_changed then none
                   else watchInfo.last_changed,
                 keywords := extractKeywordContexts snapshotText matchedKeywords }
        else none

/-- Result of one of the route's data-fetching helpers: the rows, or the
error `NextResponse` the helper built (status 500 with a fixed message,
which the route returns unchanged). -/
inductive Fetched (α : Type) where
  | ok (value : α)
  | failed
deriving DecidableEq, Repr

/-- The collaborators `GET /api/alert/check` reads from: `fetchKeywords`
(keyword store), `fetchWatches` (watch registry, in `Object.entries`
order), `fetchLatestSnapshot` per watch id, and the clock
`Math.floor(Date.now() / 1000)`. -/
structure CheckEnv where
  keywords : Fetched (List KeywordInfo)
  watches : Fetched (List (String × WatchInfo))
  snap : String → Option String
  now : Int

/-- `/api/alert/check`: `searchParams.get("recent") === "1"`. -/
def checkRecentParam (recent : Option String) : Bool :=
  recent == some "1"

/-- `/api/alert/send-email`:
`searchParams.has("recent") ? searchParams.get("recent") === "1" : true`. -/
def sendEmailCheckRecentParam (recent : Option String) : Bool :=
  match recent with
  | none => true
  | some v => v == "1"

/-- A route response: `ok` is an HTTP 200 whose JSON body is
`{ message, matches: matchList }`, `error` a non-200 JSON `{ message }`. -/
inductive CheckResponse where
  | ok (message : String) (matchList : List WatchMatch)
  | error (status : Nat) (message : String)
deriving DecidableEq, Repr

/-- `GET /api/alert/check` (route.ts), from the point the API key is
available: hours validation, keyword load with empty short-circuit, watch
list load, cutoff computation, and the per-watch fan-out.  The source
collects reports by `matches.push` inside `Promise.all`, so only the set
of reports (not their order) is determined; we sequence them in watch-list
order. -/
def checkRoute (env : CheckEnv) (recent : Option String) (hours : Int) : CheckResponse :=
  if hours < 1 || 720 < hours then
    .error 400 "Hours parameter must be between 1 and 720"
  else
    let checkRecent := checkRecentParam recent
    match env.keywords with
    | .failed => .error 500 "Failed to fetch keywords from database"
    | .ok keywords =>
      if keywords.length = 0 then
        .ok "No keywords found in database" []
      else
        match env.watches with
        | .failed => .error 500 "Failed to fetch monitored URLs"
        | .ok watches =>
          let timeThreshold := env.now - hours * 3600
          let matchList := watches.filterMap fun e =>
            processWatch keywords checkRecent timeThreshold env.snap e.1 e.2
          .ok ("Found " ++ toString matchList.length ++ " URLs with keyword matches") matchList

/-- Outcome of the dispatch stage of `GET /api/alert/send-email`:
both constructors are HTTP 200 responses. -/
inductive SendEmailResult where
  | noMatches (message : String)
  | sent (message : String) (emailsSent emailsFailed totalEmails : Nat)
deriving DecidableEq, Repr

/-- Lines 99–246 of `app/api/alert/send-email/route.ts`, given the match
list and recipient list: early return when there are no matches, otherwise
one send per recipient.  `sendOk e` tells whether `sendAlertEmail` resolves
for recipient `e`; a rejection is caught in the per-recipient `try/catch`
(and again by the defensive `.catch` + `Promise.allSettled` layers), so the
dispatch itself never throws and every recipient is attempted.  The tally
counts `success` flags. -/
def sendEmailDispatch (matchList : List WatchMatch) (emailAddresses : List String)
    (sendOk : String → Bool) : SendEmailResult :=
  if matchList.length = 0 then
    .noMatches "No matches found, no emails sent"
  else
    let processedResults := emailAddresses.map fun email => (email, sendOk email)
    let successCount := (processedResults.filter fun r => r.2).length
    let failureCount := processedResults.length - successCount
    .sent ("Email alerts sent for " ++ toString matchList.length ++ " URL matches")
      successCount failureCount emailAddresses.length

/-! ## Concrete fixtures used by witness theorems -/

def kwBreach : KeywordInfo := { id := "k1", keyword := "breach", category := none }

def snapAll : String → Option String := fun _ => some "breach here"

def watchOK : WatchInfo :=
  { url := "http://example.org", title := none, last_checked := none,
    last_changed := some 500, last_error := false }

def envW : CheckEnv :=
  { keywords := .ok [kwBreach], watches := .ok [("u1", watchOK)],
    snap := snapAll, now := 1000 }

def repW : WatchMatch :=
  { watchId := "u1", url := "http://example.org", title := "http://example.org",
    lastChanged := some 500,
    keywords := [{ keyword := "breach", keywordId := "k1", category := none,
                   context := "breach here",
                   highlightedContext := some "<mark>breach</mark> here" }] }

def w1 : WatchInfo :=
  { url := "http://a", title := none, last_checked := none,
    last_changed := some 900, last_error := false }

def w2 : WatchInfo :=
  { url := "http://b", title := none, last_checked := none,
    last_changed := some 900, last_error := false }

def w3 : WatchInfo :=
  { url := "http://c", title := none, last_checked := none,
    last_changed := some 900, last_error := false }

def snap3 : String → Option String := fun u => if u = "u2" then none else some "a breach"

def env3 : CheckEnv :=
  { keywords := .ok [kwBreach], watches := .ok [("u1", w1), ("u2", w2), ("u3", w3)],
    snap := snap3, now := 1000 }

def rep1 : WatchMatch :=
  { watchId := "u1", url := "http://a", title := "http://a", lastChanged := some 900,
    keywords := [{ keyword := "breach", keywordId := "k1", category := none,
                   context := "a breach",
                   highlightedContext := some "a <mark>breach</mark>" }] }

def rep3 : WatchMatch :=
  { watchId := "u3", url := "http://c", title := "http://c", lastChanged := some 900,
    keywords := [{ keyword := "breach", keywordId := "k1", category := none,
                   context := "a breach",
                   highlightedContext := some "a <mark>breach</mark>" }] }

def wOld : WatchInfo :=
  { url := "http://old", title := none, last_checked := none,
    last_changed := some 999910000, last_error := false }

def wNew : WatchInfo :=
  { url := "http://new", title := none, last_checked := none,
    last_changed := some 999996400, last_error := false }

def envNoKeywords : CheckEnv :=
  { keywords := .ok [], watches := .failed, snap := fun _ => none, now := 0 }

def repSolo : WatchMatch :=
  { watchId := "u", url := "http://a", title := "http://a", lastChanged := none,
    keywords := [] }

/-! ## Character-level lemmas -/

theorem toNat_ofNat_valid {n : Nat} (h : n.isValidChar) : (Char.ofNat n).toNat = n := by
  rw [Char.ofNat, dif_pos h]
  rfl

theorem char_toLower_idem (c : Char) : c.toLower.toLower = c.toLower := by
  simp only [Char.toLower]
  split
  next h =>
    have hvalid : (c.toNat + 32).isValidChar := Or.inl (by omega)
    have hv : (Char.ofNat (c.toNat + 32)).toNat = c.toNat + 32 := toNat_ofNat_valid hvalid
    rw [if_neg]
    omega
  next h => rfl

theorem lowerStr_idem (l : List Char) : lowerStr (lowerStr l) = lowerStr l := by
  simp only [lowerStr, List.map_map]
  exact List.map_congr_left fun c _ => char_toLower_idem c

/-! ## Searching `List.range` -/

theorem find?_range_eq_none {p : Nat → Bool} {n : Nat} :
    (List.range n).find? p = none ↔ ∀ i < n, p i = false := by
  rw [List.find?_eq_none]
  constructor
  · intro h i hi
    exact Bool.not_eq_true _ |>.mp (h i (List.mem_range.mpr hi))
  · intro h x hx
    simp [h x (List.mem_range.mp hx)]

theorem find?_range_eq_some {p : Nat → Bool} {n i : Nat}
    (h : (List.range n).find? p = some i) :
    p i = true ∧ i < n ∧ ∀ j < i, p j = false := by
  induction n generalizing p i with
  | zero => simp [List.range_zero] at h
  | succ n ih =>
    rw [List.range_succ_eq_map, List.find?_cons] at h
    by_cases h0 : p 0 = true
    · rw [h0] at h
      simp only at h
      cases h
      exact ⟨h0, Nat.succ_pos n, fun j hj => absurd hj (Nat.not_lt_zero j)⟩
    · have h0f : p 0 = false := Bool.not_eq_true _ |>.mp h0
      rw [h0f] at h
      rw [List.find?_map] at h
      match hfind : (List.range n).find? (p ∘ Nat.succ) with
      | none => rw [hfind] at h; simp at h
      | some i' =>
        rw [hfind] at h
        simp only [Option.map_some] at h
        obtain ⟨hp, hlt, hmin⟩ := ih hfind
        cases h
        refine ⟨hp, by omega, ?_⟩
        intro j hj
        cases j with
        | zero => exact Bool.not_eq_true _ |>.mp h0
        | succ j => exact hmin j (by omega)

/-! ## Occurrence lemmas for `occursAt` / `containsSub` / `indexOfSub` -/

theorem occursAt_le_length {sub text : List Char} {i : Nat}
    (h : occursAt sub text i = true) : i + sub.length ≤ text.length := by
  simp only [occursAt, Bool.and_eq_true, decide_eq_true_eq] at h
  exact h.2

theorem containsSub_iff {sub text : List Char} :
    containsSub sub text = true ↔ ∃ i, occursAt sub text i = true := by
  simp only [containsSub, List.any_eq_true, List.mem_range]
  constructor
  · rintro ⟨i, _, hi⟩; exact ⟨i, hi⟩
  · rintro ⟨i, hi⟩
    exact ⟨i, by have := occursAt_le_length hi; omega, hi⟩

theorem containsSub_eq_false_iff {sub text : List Char} :
    containsSub sub text = false ↔ ∀ i, occursAt sub text i = false := by
  constructor
  · intro h i
    by_contra hne
    have : occursAt sub text i = true := Bool.not_eq_false _ |>.mp hne
    have := containsSub_iff.mpr ⟨i, this⟩
    rw [h] at this
    exact Bool.false_ne_true this
  · intro h
    by_contra hne
    have : containsSub sub text = true := Bool.not_eq_false _ |>.mp hne
    obtain ⟨i, hi⟩ := containsSub_iff.mp this
    rw [h i] at hi
    exact Bool.false_ne_true hi

theorem indexOfSub_eq_none_of {sub text : List Char}
    (h : containsSub sub text = false) : indexOfSub sub text = none := by
  rw [indexOfSub, find?_range_eq_none]
  intro i _
  exact containsSub_eq_false_iff.mp h i

theorem indexOfSub_some {sub text : List Char} {i : Nat}
    (h : indexOfSub sub text = some i) :
    occursAt sub text i = true ∧ ∀ j < i, occursAt sub text j = false :=
  let ⟨h1, _, h3⟩ := find?_range_eq_some h
  ⟨h1, h3⟩

theorem indexOfSub_isSome_of {sub text : List Char}
    (h : containsSub sub text = true) : ∃ i, indexOfSub sub text = some i := by
  match hfind : indexOfSub sub text with
  | some i => exact ⟨i, rfl⟩
  | none =>
    rw [indexOfSub, find?_range_eq_none] at hfind
    obtain ⟨i, hi⟩ := containsSub_iff.mp h
    have hb := occursAt_le_length hi
    rw [hfind i (by omega)] at hi
    exact absurd hi (by simp)

/-! ## The normalization pipelines only produce lower-case-fixed text -/

theorem lowerStr_fixed {c : Char} {l : List Char} (h : c ∈ lowerStr l) :
    c.toLower = c := by
  obtain ⟨d, _, rfl⟩ := List.mem_map.mp h
  exact char_toLower_idem d

theorem lowerStr_eq_self {l : List Char} (h : ∀ c ∈ l, c.toLower = c) :
    lowerStr l = l := by
  conv_rhs => rw [← List.map_id l]
  exact List.map_congr_left fun c hc => h c hc

theorem mem_jsTrim {c : Char} {l : List Char} (h : c ∈ jsTrim l) : c ∈ l := by
  simp only [jsTrim, List.mem_reverse] at h
  have h1 := (List.dropWhile_sublist (l := (l.dropWhile isJsSpace).reverse) isJsSpace).mem h
  rw [List.mem_reverse] at h1
  exact (List.dropWhile_sublist (l := l) isJsSpace).mem h1

theorem mem_collapseWsAux {c : Char} {b : Bool} {l : List Char}
    (h : c ∈ collapseWsAux b l) : c ∈ l ∨ c = ' ' := by
  induction l generalizing b with
  | nil => simp [collapseWsAux] at h
  | cons d rest ih =>
    simp only [collapseWsAux] at h
    split at h
    · split at h
      · rcases ih h with h' | h'
        · exact Or.inl (List.mem_cons_of_mem d h')
        · exact Or.inr h'
      · rcases List.mem_cons.mp h with h' | h'
        · exact Or.inr h'
        · rcases ih h' with h'' | h''
          · exact Or.inl (List.mem_cons_of_mem d h'')
          · exact Or.inr h''
    · rcases List.mem_cons.mp h with h' | h'
      · exact Or.inl (h' ▸ List.mem_cons_self d rest)
      · rcases ih h' with h'' | h''
        · exact Or.inl (List.mem_cons_of_mem d h'')
        · exact Or.inr h''

theorem afterGt_mem {l r : List Char} (h : afterGt l = some r) {c : Char}
    (hc : c ∈ r) : c ∈ l := by
  induction l with
  | nil => simp [afterGt] at h
  | cons d rest ih =>
    simp only [afterGt] at h
    split at h
    · cases h
      exact List.mem_cons_of_mem d hc
    · exact List.mem_cons_of_mem d (ih h)

theorem mem_stripTagsF {c : Char} {fuel : Nat} {l : List Char}
    (h : c ∈ stripTagsF fuel l) : c ∈ l ∨ c = ' ' := by
  induction fuel generalizing l with
  | zero =>
    match l with
    | [] => simp [stripTagsF] at h
    | d :: rest => exact Or.inl h
  | succ fuel ih =>
    match l with
    | [] => simp [stripTagsF] at h
    | d :: rest =>
      simp only [stripTagsF] at h
      split at h
      · split at h
        next after hafter =>
          rcases List.mem_cons.mp h with h' | h'
          · exact Or.inr h'
          · rcases ih h' with h'' | h''
            · exact Or.inl (List.mem_cons_of_mem d (afterGt_mem hafter h''))
            · exact Or.inr h''
        next => exact Or.inl h
      · rcases List.mem_cons.mp h with h' | h'
        · exact Or.inl (h' ▸ List.mem_cons_self d rest)
        · rcases ih h' with h'' | h''
          · exact Or.inl (List.mem_cons_of_mem d h'')
          · exact Or.inr h''

theorem normalizeForFind_fixed (t : List Char) :
    lowerStr (normalizeForFind t) = normalizeForFind t := by
  apply lowerStr_eq_self
  intro c hc
  have h1 := mem_jsTrim hc
  rcases mem_collapseWsAux h1 with h2 | h2
  · rcases mem_stripTagsF h2 with h3 | h3
    · exact lowerStr_fixed h3
    · subst h3; rfl
  · subst h2; rfl

theorem jsTrim_lowerStr_fixed (k : List Char) :
    lowerStr (jsTrim (lowerStr k)) = jsTrim (lowerStr k) := by
  apply lowerStr_eq_self
  intro c hc
  exact lowerStr_fixed (mem_jsTrim hc)

theorem wordBoundaryTest_imp_containsSub {kw text : List Char}
    (hkw : lowerStr kw = kw) (htx : lowerStr text = text)
    (h : wordBoundaryTest kw text = true) : containsSub kw text = true := by
  simp only [wordBoundaryTest, List.any_eq_true, List.mem_range] at h
  obtain ⟨i, _, hi⟩ := h
  simp only [Bool.and_eq_true] at hi
  have hocc : occursAtCI kw text i = true := hi.1.1
  rw [occursAtCI, hkw, htx] at hocc
  exact containsSub_iff.mpr ⟨i, hocc⟩

/-! ## Window-extraction lemmas -/

theorem occursAt_embed {sub l pre suf : List Char} {i : Nat}
    (h : occursAt sub l i = true) :
    occursAt sub (pre ++ l ++ suf) (pre.length + i) = true := by
  simp only [occursAt, Bool.and_eq_true, decide_eq_true_eq] at h ⊢
  obtain ⟨htake, hlen⟩ := h
  refine ⟨?_, ?_⟩
  · rw [List.append_assoc, List.drop_append,
      List.drop_append_of_le_length (by omega),
      List.take_append_of_le_length (by rw [List.length_drop]; omega), htake]
  · simp only [List.length_append]
    omega

theorem occursAt_window {sub t : List Char} {i s e : Nat}
    (h : occursAt sub t i = true) (hs : s ≤ i) (he : i + sub.length ≤ e)
    (hel : e ≤ t.length) :
    occursAt sub ((t.drop s).take (e - s)) (i - s) = true := by
  simp only [occursAt, Bool.and_eq_true, decide_eq_true_eq] at h ⊢
  obtain ⟨htake, hlen⟩ := h
  refine ⟨?_, ?_⟩
  · rw [List.drop_take, List.drop_drop]
    have hsi : s + (i - s) = i := by omega
    rw [hsi, List.take_take]
    have hmin : min sub.length (e - s - (i - s)) = sub.length := by omega
    rw [hmin, htake]
  · rw [List.length_take, List.length_drop]
    omega

theorem extractOne_context_of_found (clean : List Char) (k : KeywordInfo) {i : Nat}
    (hidx : indexOfSub (lowerStr k.keyword.toList) (lowerStr clean) = some i) :
    (extractOne clean (lowerStr clean) k).context.data =
      (if 100 < i then "...".toList else []) ++
        ((clean.drop (i - 100)).take
          (min clean.length (i + k.keyword.length + 100) - (i - 100))) ++
        (if i + k.keyword.length + 100 < clean.length then "...".toList else []) := by
  simp only [extractOne, hidx]
  by_cases h1 : 100 < i <;>
    by_cases h2 : i + k.keyword.length + 100 < clean.length <;>
      simp [h1, h2, Nat.sub_pos_iff_lt, List.append_assoc]

theorem extractOne_fields (ct lct : List Char) (k : KeywordInfo) :
    (extractOne ct lct k).keyword = k.keyword ∧
    (extractOne ct lct k).keywordId = k.id ∧
    (extractOne ct lct k).category = k.category := by
  simp only [extractOne]
  split <;> simp

theorem extractOne_not_found (ct : List Char) (k : KeywordInfo)
    (h : containsSub (lowerStr k.keyword.toList) (lowerStr ct) = false) :
    extractOne ct (lowerStr ct) k =
      { keyword := k.keyword, keywordId := k.id, category := k.category,
        context := "", highlightedContext := none } := by
  have hidx : indexOfSub (lowerStr k.keyword.toList) (lowerStr ct) = none :=
    indexOfSub_eq_none_of h
  have hwb : wordBoundaryFind (lowerStr k.keyword.toList) (lowerStr ct) = none := by
    rw [wordBoundaryFind, find?_range_eq_none]
    intro j hj
    have hocc : occursAtCI (lowerStr k.keyword.toList) (lowerStr ct) j = false := by
      rw [occursAtCI, lowerStr_idem, lowerStr_idem]
      exact containsSub_eq_false_iff.mp h j
    have hocc2 : occursAtCI (lowerStr k.keyword.data) (lowerStr ct) j = false := hocc
    simp [hocc2]
  simp only [extractOne, hidx, hwb]

/-! ## Scan-route lemmas -/

theorem processWatch_some_inv {ks : List KeywordInfo} {cr : Bool} {th : Int}
    {snap : String → Option String} {uuid : String} {w : WatchInfo} {m : WatchMatch}
    (h : processWatch ks cr th snap uuid w = some m) :
    w.last_error = false ∧ m.watchId = uuid ∧ m.keywords ≠ [] := by
  simp only [processWatch] at h
  split at h
  · exact absurd h (by simp)
  · split at h
    · exact absurd h (by simp)
    next herr =>
      split at h
      · exact absurd h (by simp)
      next text heq =>
        split at h
        · exact absurd h (by simp)
        · split at h
          next hmk =>
            rw [Option.some_inj] at h
            subst h
            refine ⟨Bool.not_eq_true _ |>.mp herr, rfl, ?_⟩
            apply List.length_pos.mp
            have hlen : (extractKeywordContexts text (findKeywordsInText text ks)).length =
                (findKeywordsInText text ks).length := by
              simp [extractKeywordContexts]
            rw [hlen]
            exact hmk
          · exact absurd h (by simp)

theorem checkRoute_ok_inv {env : CheckEnv} {recent : Option String} {hours : Int}
    {msg : String} {ml : List WatchMatch}
    (h : checkRoute env recent hours = .ok msg ml) {m : WatchMatch} (hm : m ∈ ml) :
    ∃ ws ks uuid w, env.watches = .ok ws ∧ env.keywords = .ok ks ∧ (uuid, w) ∈ ws ∧
      processWatch ks (checkRecentParam recent) (env.now - hours * 3600) env.snap uuid w
        = some m := by
  simp only [checkRoute] at h
  split at h
  · exact absurd h (by simp)
  · split at h
    · exact absurd h (by simp)
    next ks hk =>
      split at h
      · rw [CheckResponse.ok.injEq] at h
        rw [← h.2] at hm
        exact absurd hm (by simp)
      · split at h
        · exact absurd h (by simp)
        next ws hw =>
          rw [CheckResponse.ok.injEq] at h
          rw [← h.2] at hm
          obtain ⟨e, hmem, hpw⟩ := List.mem_filterMap.mp hm
          exact ⟨ws, ks, e.1, e.2, hw, hk, by simpa using hmem, hpw⟩

/-! ## Claim theorems -/

/-- C1 (counterexample): the claim says a keyword occurring only inside a
`<script>` block is not reported.  On `"<script>x breach y</script>"` the
keyword `breach` occurs only inside the script block — its lower-cased text
does not occur in the script-stripped cleaned text (second conjunct, with
`cleanSnapshot` being exactly the script/style-stripping normalization the
claim describes) — yet `findKeywordsInText` reports it, because its own
normalization only replaces tags by spaces and keeps the block contents. -/
theorem findKeywordsInText_script_counterexample :
    findKeywordsInText "<script>x breach y</script>" [kwBreach] = [kwBreach] ∧
    containsSub (lowerStr kwBreach.keyword.toList)
      (lowerStr (cleanSnapshot "<script>x breach y</script>".toList)) = false := by
  constructor
  · decide
  · decide

/-- C1 (amended): for nonempty `T`, `findKeywordsInText T K` returns exactly
those keywords of `K` with nonempty text whose trimmed lower-cased text
occurs as a substring of the normalized form of `T`, where normalization
lower-cases, replaces HTML tags by single spaces — RETAINING the text
contents of `<script>`/`<style>` blocks — collapses whitespace runs and
trims.  The word-boundary regex check adds nothing: a word-boundary match
is in particular a substring occurrence (both checks are reproduced in
`keywordPresent`). -/
theorem findKeywordsInText_matches_iff (text : String) (keywords : List KeywordInfo)
    (k : KeywordInfo) (ht : text ≠ "") :
    k ∈ findKeywordsInText text keywords ↔
      k ∈ keywords ∧ k.keyword ≠ "" ∧
        containsSub (jsTrim (lowerStr k.keyword.toList))
          (normalizeForFind text.toList) = true := by
  unfold findKeywordsInText
  rw [if_neg ht, List.mem_filter]
  constructor
  · rintro ⟨hmem, hpres⟩
    refine ⟨hmem, ?_, ?_⟩
    · intro he
      rw [keywordPresent, if_pos he] at hpres
      exact Bool.false_ne_true hpres
    · rw [keywordPresent] at hpres
      split at hpres
      · exact absurd hpres (by simp)
      · simp only [Bool.or_eq_true] at hpres
        rcases hpres with h | h
        · exact h
        · exact wordBoundaryTest_imp_containsSub (jsTrim_lowerStr_fixed _)
            (normalizeForFind_fixed _) h
  · rintro ⟨hmem, hne, hsub⟩
    refine ⟨hmem, ?_⟩
    rw [keywordPresent, if_neg hne]
    simp only [Bool.or_eq_true]
    exact Or.inl hsub

/-- C1 (witness): the amended characterization applied at a concrete page
whose visible text contains the keyword. -/
theorem findKeywordsInText_matches_iff_witness :
    kwBreach ∈ findKeywordsInText "<p>a breach</p>" [kwBreach] ↔
      kwBreach ∈ [kwBreach] ∧ kwBreach.keyword ≠ "" ∧
        containsSub (jsTrim (lowerStr kwBreach.keyword.toList))
          (normalizeForFind "<p>a breach</p>".toList) = true :=
  findKeywordsInText_matches_iff "<p>a breach</p>" [kwBreach] kwBreach (by decide)

/-- C2 (counterexample): the claim says "no snapshot yet" (a non-success
registry status, e.g. 404) is observably distinguished from a network
failure, which should fail with an `UpstreamUnavailable` error.  In the
source both outcomes return the same `null`: the function's codomain has no
error case at all, and the two outcomes are equal. -/
theorem fetchLatestSnapshot_counterexample :
    fetchLatestSnapshot (.httpError 404) = none ∧
    fetchLatestSnapshot .networkFailure = none ∧
    fetchLatestSnapshot (.httpError 404) = fetchLatestSnapshot .networkFailure :=
  ⟨rfl, rfl, rfl⟩

/-- C2 (amended): `fetchLatestSnapshot` returns the body on a success
response, and `null` BOTH when the registry answers with a non-success
status (e.g. no snapshot exists yet) and when the fetch itself fails; the
caller cannot tell "no snapshot yet" apart from "the fetch failed". -/
theorem fetchLatestSnapshot_absent_eq_failure :
    (∀ b, fetchLatestSnapshot (.success b) = some b) ∧
    (∀ st, fetchLatestSnapshot (.httpError st) = none) ∧
    fetchLatestSnapshot .networkFailure = none :=
  ⟨fun _ => rfl, fun _ => rfl, rfl⟩

/-- C3: once the keyword fetch (nonempty) and the watch-list fetch have
succeeded, the scan returns HTTP 200 with a match list, and every watch
whose own processing yields a report appears in that list — in particular a
snapshot-fetch failure of one watch (its `processWatch` returns `none`)
cannot remove any other watch's report or fail the scan. -/
theorem scan_batch_isolation (env : CheckEnv) (recent : Option String) (hours : Int)
    (ks : List KeywordInfo) (ws : List (String × WatchInfo))
    (hhl : 1 ≤ hours) (hhu : hours ≤ 720) (hk : env.keywords = .ok ks) (hkne : ks ≠ [])
    (hw : env.watches = .ok ws) :
    ∃ ml, checkRoute env recent hours =
        .ok ("Found " ++ toString ml.length ++ " URLs with keyword matches") ml ∧
      ∀ uuid w m, (uuid, w) ∈ ws →
        processWatch ks (checkRecentParam recent) (env.now - hours * 3600)
          env.snap uuid w = some m →
        m ∈ ml := by
  refine ⟨ws.filterMap fun e =>
    processWatch ks (checkRecentParam recent) (env.now - hours * 3600) env.snap e.1 e.2,
    ?_, ?_⟩
  · simp only [checkRoute, hk, hw]
    rw [if_neg (by simp only [Bool.or_eq_true, decide_eq_true_eq]; omega)]
    rw [if_neg (fun hc => hkne (List.length_eq_zero.mp hc))]
  · intro uuid w m hmem hpw
    exact List.mem_filterMap.mpr ⟨(uuid, w), hmem, hpw⟩

/-- C3 (witness): three otherwise-matching watches; the snapshot fetch for
`u2` fails (`snap3 "u2" = none`); the scan succeeds and still contains the
reports of `u1` and `u3`. -/
theorem scan_batch_isolation_witness :
    ∃ ml, checkRoute env3 none 24 =
        .ok ("Found " ++ toString ml.length ++ " URLs with keyword matches") ml ∧
      rep1 ∈ ml ∧ rep3 ∈ ml := by
  obtain ⟨ml, hok, hmem⟩ := scan_batch_isolation env3 none 24 [kwBreach]
    [("u1", w1), ("u2", w2), ("u3", w3)] (by decide) (by decide) rfl (by decide) rfl
  exact ⟨ml, hok, hmem "u1" w1 rep1 (by decide) (by decide),
    hmem "u3" w3 rep3 (by decide) (by decide)⟩

/-- C4: the dispatch stage never throws (it is a total function whose
per-recipient failures are absorbed by the `try/catch` and
`Promise.allSettled` layers) and, for a nonempty match list, returns an
HTTP 200 tally whose `emailsSent` counts the recipients whose send
succeeded, whose `emailsFailed` counts those whose send threw, and whose
`totalEmails` is the number of recipients. -/
theorem dispatch_tally (ml : List WatchMatch) (rs : List String)
    (sendOk : String → Bool) (hml : ml ≠ []) :
    sendEmailDispatch ml rs sendOk =
      .sent ("Email alerts sent for " ++ toString ml.length ++ " URL matches")
        (rs.filter sendOk).length (rs.filter fun e => !sendOk e).length rs.length := by
  simp only [sendEmailDispatch]
  rw [if_neg (fun hc => hml (List.length_eq_zero.mp hc))]
  have hsucc : ((rs.map fun email => (email, sendOk email)).filter fun r => r.2).length =
      (rs.filter sendOk).length := by
    rw [List.filter_map]
    rw [List.length_map]
    rfl
  have hlen : (rs.map fun email => (email, sendOk email)).length = rs.length := by simp
  have hcompl : (rs.filter sendOk).length + (rs.filter fun e => !sendOk e).length
      = rs.length := by
    simp only [← List.countP_eq_length_filter]
    have := List.length_eq_countP_add_countP (l := rs) sendOk
    simp only [decide_not, Bool.decide_eq_true] at this
    omega
  rw [hsucc, hlen]
  congr 1
  omega

/-- C4 (witness): three recipients, the send to `"b"` throws, the others
succeed: the dispatch returns `{sent ... 2 1 3}` (sent 2, failed 1,
total 3). -/
theorem dispatch_tally_witness :
    sendEmailDispatch [repSolo] ["a", "b", "c"] (fun e => !(e == "b")) =
      .sent "Email alerts sent for 1 URL matches" 2 1 3 :=
  (dispatch_tally [repSolo] ["a", "b", "c"] (fun e => !(e == "b")) (by decide)).trans
    (by decide)

/-- C5: every report in a successful scan's match list has a nonempty
keyword-match list, and originates from a watch in the fetched watch list
whose error flag is false — a watch with `last_error` never produces a
report, regardless of its `last_changed`. -/
theorem scan_report_invariant {env : CheckEnv} {recent : Option String} {hours : Int}
    {msg : String} {ml : List WatchMatch}
    (hok : checkRoute env recent hours = .ok msg ml) {m : WatchMatch} (hm : m ∈ ml) :
    m.keywords ≠ [] ∧ ∃ ws uuid w, env.watches = .ok ws ∧ (uuid, w) ∈ ws ∧
      m.watchId = uuid ∧ w.last_error = false := by
  obtain ⟨ws, ks, uuid, w, hw, hk, hmem, hpw⟩ := checkRoute_ok_inv hok hm
  obtain ⟨herr, hid, hne⟩ := processWatch_some_inv hpw
  exact ⟨hne, ws, uuid, w, hw, hmem, hid, herr⟩

/-- C5 (witness): the invariant applied to a concrete successful scan with
one matching watch. -/
theorem scan_report_invariant_witness :
    repW.keywords ≠ [] ∧ ∃ ws uuid w, envW.watches = .ok ws ∧ (uuid, w) ∈ ws ∧
      repW.watchId = uuid ∧ w.last_error = false :=
  scan_report_invariant
    (show checkRoute envW none 24 = .ok "Found 1 URLs with keyword matches" [repW]
      by decide)
    (by decide)

/-- C6: for a watch with no error and a matching, nonempty snapshot, and
with recency filtering on, the watch is skipped (produces no report) if and
only if its `last_changed` is absent or earlier than the cutoff
`now − hours·3600`.  The source reads absence through JS truthiness, so the
timestamp `0` — the registry's encoding of "never changed" — also counts as
absent (the `t = 0` disjunct). -/
theorem scan_recency_filter (ks : List KeywordInfo) (now hours : Int)
    (snap : String → Option String) (uuid : String) (w : WatchInfo) (text : String)
    (herr : w.last_error = false) (hsnap : snap uuid = some text) (htext : text ≠ "")
    (hmatch : findKeywordsInText text ks ≠ []) :
    processWatch ks true (now - hours * 3600) snap uuid w = none ↔
      ∀ t, w.last_changed = some t → t = 0 ∨ t < now - hours * 3600 := by
  simp only [processWatch, hsnap, Bool.true_and]
  by_cases hc : (jsFalsyTime w.last_changed
      || decide (w.last_changed.getD 0 < now - hours * 3600)) = true
  · rw [if_pos hc]
    apply iff_of_true rfl
    intro t ht
    rw [ht] at hc
    simp only [jsFalsyTime, Bool.or_eq_true, decide_eq_true_eq, Option.getD_some] at hc
    exact hc
  · rw [if_neg hc]
    rw [if_neg (by simp [herr])]
    rw [if_neg htext]
    rw [if_pos (List.length_pos.mpr hmatch)]
    apply iff_of_false (by simp)
    intro hall
    match hwc : w.last_changed with
    | none => rw [hwc] at hc; simp [jsFalsyTime] at hc
    | some t =>
      rw [hwc] at hc
      simp only [jsFalsyTime, Bool.or_eq_true, decide_eq_true_eq, Option.getD_some,
        not_or] at hc
      rcases hall t hwc with h0 | hlt
      · exact hc.1 (by simp [h0])
      · exact hc.2 hlt

/-- C6 (witness): with `now = 10^9` and `hours = 24`, a watch last changed
25 hours ago is skipped and one changed 1 hour ago is not. -/
theorem scan_recency_filter_witness :
    processWatch [kwBreach] true ((1000000000 : Int) - 24 * 3600) snapAll "u" wOld
      = none ∧
    processWatch [kwBreach] true ((1000000000 : Int) - 24 * 3600) snapAll "u" wNew
      ≠ none := by
  constructor
  · refine (scan_recency_filter [kwBreach] 1000000000 24 snapAll "u" wOld "breach here"
      rfl rfl (by decide) (by decide)).mpr ?_
    intro t ht
    rw [show wOld.last_changed = some 999910000 from rfl, Option.some_inj] at ht
    subst ht
    exact Or.inr (by decide)
  · intro hnone
    rcases (scan_recency_filter [kwBreach] 1000000000 24 snapAll "u" wNew "breach here"
        rfl rfl (by decide) (by decide)).mp hnone 999996400 rfl with h | h
    · exact absurd h (by decide)
    · exact absurd h (by decide)

/-- C7 (counterexample): the claim asserts that the context produced for
every matched keyword contains the keyword case-insensitively.  For a
keyword matched only inside a `<script>` block (which `findKeywordsInText`
does report, see C1), the context-extraction cleaning removes the block, so
the produced context is the empty string, which does not contain the
keyword. -/
theorem extractContext_counterexample :
    kwBreach ∈ findKeywordsInText "<script>x breach y</script>" [kwBreach] ∧
    (extractKeywordContexts "<script>x breach y</script>" [kwBreach]).map
      (fun m => m.context) = [""] ∧
    containsSub (lowerStr kwBreach.keyword.toList) (lowerStr ("" : String).toList)
      = false := by
  refine ⟨?_, ?_, ?_⟩ <;> decide

/-- C7 (amended): for every keyword whose lower-cased text occurs in the
cleaned (script/style-stripped, tag-stripped, whitespace-collapsed) text,
`extractKeywordContexts` locates the FIRST occurrence (all earlier
positions carry no occurrence), and produces a context equal to a symmetric
100-character window around it, with a `...` prefix exactly when truncated
at the start and a `...` suffix exactly when truncated at the end; the
context has at most `2·100 + len(k) + 6` characters and contains the
keyword case-insensitively.  (When the keyword does not occur in the
cleaned text — possible for a match found only inside a script/style block
— the context is empty instead; see the counterexample.) -/
theorem extractContext_window (s : String) (k : KeywordInfo)
    (hocc : containsSub (lowerStr k.keyword.toList)
      (lowerStr (cleanSnapshot s.toList)) = true) :
    ∃ i m,
      indexOfSub (lowerStr k.keyword.toList) (lowerStr (cleanSnapshot s.toList))
        = some i ∧
      (∀ j < i, occursAt (lowerStr k.keyword.toList)
        (lowerStr (cleanSnapshot s.toList)) j = false) ∧
      extractKeywordContexts s [k] = [m] ∧
      m.context.data =
        (if 100 < i then "...".toList else []) ++
          (((cleanSnapshot s.toList).drop (i - 100)).take
            (min (cleanSnapshot s.toList).length (i + k.keyword.length + 100)
              - (i - 100))) ++
          (if i + k.keyword.length + 100 < (cleanSnapshot s.toList).length then
            "...".toList else []) ∧
      m.context.length ≤ 2 * 100 + k.keyword.length + 6 ∧
      containsSub (lowerStr k.keyword.toList) (lowerStr m.context.data) = true := by
  obtain ⟨i, hidx⟩ := indexOfSub_isSome_of hocc
  obtain ⟨hocc_i, hmin⟩ := indexOfSub_some hidx
  have hctx := extractOne_context_of_found (cleanSnapshot s.toList) k hidx
  have hkwlen : (lowerStr k.keyword.toList).length = k.keyword.length := by
    simp [lowerStr]
  have hlen : (lowerStr (cleanSnapshot s.toList)).length
      = (cleanSnapshot s.toList).length := by
    simp [lowerStr]
  have hb := occursAt_le_length hocc_i
  refine ⟨i, extractOne (cleanSnapshot s.toList) (lowerStr (cleanSnapshot s.toList)) k,
    hidx, hmin, rfl, hctx, ?_, ?_⟩
  · have h0 : (extractOne (cleanSnapshot s.toList) (lowerStr (cleanSnapshot s.toList))
        k).context.length =
        (extractOne (cleanSnapshot s.toList) (lowerStr (cleanSnapshot s.toList))
          k).context.data.length := rfl
    rw [h0, hctx]
    have hdots : ("...".toList : List Char).length = 3 := rfl
    have hT := List.length_take_le
      (min (cleanSnapshot s.toList).length (i + k.keyword.length + 100) - (i - 100))
      ((cleanSnapshot s.toList).drop (i - 100))
    have hE : min (cleanSnapshot s.toList).length (i + k.keyword.length + 100)
        ≤ i + k.keyword.length + 100 := min_le_right _ _
    simp only [List.length_append]
    split_ifs <;> simp only [hdots, List.length_nil] <;> omega
  · have hwin := occursAt_window (s := i - 100)
      (e := min (cleanSnapshot s.toList).length (i + k.keyword.length + 100)) hocc_i
      (by omega)
      (by
        refine Nat.le_min.mpr ⟨?_, by omega⟩
        rw [hkwlen] at hb
        omega)
      (by rw [hlen]; exact min_le_left _ _)
    have hmap : lowerStr (((cleanSnapshot s.toList).drop (i - 100)).take
          (min (cleanSnapshot s.toList).length (i + k.keyword.length + 100)
            - (i - 100))) =
        ((lowerStr (cleanSnapshot s.toList)).drop (i - 100)).take
          (min (cleanSnapshot s.toList).length (i + k.keyword.length + 100)
            - (i - 100)) := by
      rw [lowerStr, List.map_take, List.map_drop]
      rfl
    rw [← hmap] at hwin
    rw [hctx]
    have hsplit : lowerStr ((if 100 < i then "...".toList else []) ++
        (((cleanSnapshot s.toList).drop (i - 100)).take
          (min (cleanSnapshot s.toList).length (i + k.keyword.length + 100)
            - (i - 100))) ++
        (if i + k.keyword.length + 100 < (cleanSnapshot s.toList).length then
          "...".toList else [])) =
        lowerStr (if 100 < i then "...".toList else []) ++
        lowerStr (((cleanSnapshot s.toList).drop (i - 100)).take
          (min (cleanSnapshot s.toList).length (i + k.keyword.length + 100)
            - (i - 100))) ++
        lowerStr (if i + k.keyword.length + 100 < (cleanSnapshot s.toList).length then
          "...".toList else []) := by
      simp [lowerStr]
    rw [hsplit]
    apply containsSub_iff.mpr
    exact ⟨(lowerStr (if 100 < i then "...".toList else [])).length + (i - (i - 100)),
      occursAt_embed hwin⟩

/-- C7 (witness): the window property applied at a concrete page whose
visible text contains the keyword. -/
theorem extractContext_window_witness :
    ∃ i m,
      indexOfSub (lowerStr kwBreach.keyword.toList)
        (lowerStr (cleanSnapshot "<p>We suffered a BREACH yesterday</p>".toList))
        = some i ∧
      (∀ j < i, occursAt (lowerStr kwBreach.keyword.toList)
        (lowerStr (cleanSnapshot "<p>We suffered a BREACH yesterday</p>".toList)) j
          = false) ∧
      extractKeywordContexts "<p>We suffered a BREACH yesterday</p>" [kwBreach]
        = [m] ∧
      m.context.data =
        (if 100 < i then "...".toList else []) ++
          (((cleanSnapshot "<p>We suffered a BREACH yesterday</p>".toList).drop
              (i - 100)).take
            (min (cleanSnapshot "<p>We suffered a BREACH yesterday</p>".toList).length
              (i + kwBreach.keyword.length + 100) - (i - 100))) ++
          (if i + kwBreach.keyword.length + 100 <
              (cleanSnapshot "<p>We suffered a BREACH yesterday</p>".toList).length then
            "...".toList else []) ∧
      m.context.length ≤ 2 * 100 + kwBreach.keyword.length + 6 ∧
      containsSub (lowerStr kwBreach.keyword.toList) (lowerStr m.context.data)
        = true :=
  extractContext_window "<p>We suffered a BREACH yesterday</p>" kwBreach (by decide)

/-- C8: when the keyword store returns an empty list (and `hours` is in
range), the scan returns the HTTP 200 body
`{message: "No keywords found in database", matches: []}` immediately —
the environment's watch-list result is arbitrary here, including `failed`,
so the registry call is not required to succeed. -/
theorem scan_empty_keywords (env : CheckEnv) (recent : Option String) (hours : Int)
    (hk : env.keywords = .ok []) (hhl : 1 ≤ hours) (hhu : hours ≤ 720) :
    checkRoute env recent hours = .ok "No keywords found in database" [] := by
  simp only [checkRoute, hk]
  rw [if_neg (by simp only [Bool.or_eq_true, decide_eq_true_eq]; omega)]
  simp

/-- C8 (witness): concrete environment whose watch-list fetch fails; the
empty-keyword short-circuit still returns the success body. -/
theorem scan_empty_keywords_witness :
    checkRoute envNoKeywords (some "1") 24 = .ok "No keywords found in database" [] :=
  scan_empty_keywords envNoKeywords (some "1") 24 rfl (by decide) (by decide)

/-- C9: `extractKeywordContexts` maps its input list one-to-one: the output
has the same length and order, each element copies the input keyword's
`keyword`, `id` and `category`; and when a keyword cannot be located in the
cleaned text, that element's `context` is `""` and its
`highlightedContext` field is absent.  (The function is total — the
shallow embedding has no failure case, matching the source's defensive
no-throw behaviour.) -/
theorem extractContexts_shape (s : String) (ks : List KeywordInfo) :
    (extractKeywordContexts s ks).length = ks.length ∧
    ∀ i (hi : i < ks.length) (hi2 : i < (extractKeywordContexts s ks).length),
      ((extractKeywordContexts s ks).get ⟨i, hi2⟩).keyword = (ks.get ⟨i, hi⟩).keyword ∧
      ((extractKeywordContexts s ks).get ⟨i, hi2⟩).keywordId = (ks.get ⟨i, hi⟩).id ∧
      ((extractKeywordContexts s ks).get ⟨i, hi2⟩).category = (ks.get ⟨i, hi⟩).category ∧
      (containsSub (lowerStr (ks.get ⟨i, hi⟩).keyword.toList)
          (lowerStr (cleanSnapshot s.toList)) = false →
        ((extractKeywordContexts s ks).get ⟨i, hi2⟩).context = "" ∧
        ((extractKeywordContexts s ks).get ⟨i, hi2⟩).highlightedContext = none) := by
  refine ⟨by simp [extractKeywordContexts], ?_⟩
  intro i hi hi2
  have hget : (extractKeywordContexts s ks).get ⟨i, hi2⟩ =
      extractOne (cleanSnapshot s.toList) (lowerStr (cleanSnapshot s.toList))
        (ks.get ⟨i, hi⟩) := by
    simp only [extractKeywordContexts, List.get_eq_getElem, List.getElem_map]
  rw [hget]
  obtain ⟨h1, h2, h3⟩ := extractOne_fields (cleanSnapshot s.toList)
    (lowerStr (cleanSnapshot s.toList)) (ks.get ⟨i, hi⟩)
  refine ⟨h1, h2, h3, ?_⟩
  intro hno
  rw [extractOne_not_found _ _ hno]
  exact ⟨rfl, rfl⟩

/-- C9 (witness): the shape theorem applied to a text whose only occurrence
of the keyword sits inside a `<script>` block, exercising the
cannot-locate branch (`context = ""`, `highlightedContext` absent). -/
theorem extractContexts_shape_witness :
    (extractKeywordContexts "<script>x breach y</script>" [kwBreach]).length = 1 ∧
    ((extractKeywordContexts "<script>x breach y</script>" [kwBreach]).get
      ⟨0, by decide⟩).context = "" ∧
    ((extractKeywordContexts "<script>x breach y</script>" [kwBreach]).get
      ⟨0, by decide⟩).highlightedContext = none := by
  obtain ⟨hlen, hpt⟩ := extractContexts_shape "<script>x breach y</script>" [kwBreach]
  obtain ⟨-, -, -, hnf⟩ := hpt 0 (by decide) (by decide)
  obtain ⟨hc, hh⟩ := hnf (by decide)
  exact ⟨by decide, hc, hh⟩

/-- C10: `/api/alert/check` enables recency filtering iff the `recent`
query parameter is exactly `"1"`; `/api/alert/send-email` defaults it to
`true` when the parameter is absent (and otherwise also compares to
`"1"`).  When `recent` is not `"1"` in the check route, a watch produces a
report exactly when it has no error, a non-falsy snapshot and at least one
keyword match — its `last_changed` plays no role in the decision. -/
theorem recent_param_semantics :
    (∀ r : Option String, checkRecentParam r = true ↔ r = some "1") ∧
    sendEmailCheckRecentParam none = true ∧
    (∀ v : String, sendEmailCheckRecentParam (some v) = true ↔ v = "1") ∧
    (∀ (ks : List KeywordInfo) (th : Int) (snap : String → Option String)
        (uuid : String) (w : WatchInfo) (r : Option String), r ≠ some "1" →
      ((processWatch ks (checkRecentParam r) th snap uuid w).isSome = true ↔
        (w.last_error = false ∧ ∃ text, snap uuid = some text ∧ text ≠ "" ∧
          findKeywordsInText text ks ≠ []))) := by
  refine ⟨?_, rfl, ?_, ?_⟩
  · intro r
    simp [checkRecentParam]
  · intro v
    simp [sendEmailCheckRecentParam]
  · intro ks th snap uuid w r hr
    have hcr : checkRecentParam r = false := by
      rcases r with _ | v
      · rfl
      · have hv : v ≠ "1" := fun h => hr (by rw [h])
        simp [checkRecentParam, hv]
    rw [hcr]
    by_cases herr : w.last_error = true
    · simp only [processWatch, Bool.false_and, Bool.false_eq_true, if_false, herr,
        if_true]
      simp only [Option.isSome_none, Bool.false_eq_true, false_iff, not_and]
      intro hfe
      exact absurd hfe (by simp)
    · rcases hsnap : snap uuid with _ | text
      · simp only [processWatch, Bool.false_and, Bool.false_eq_true, if_false, herr,
          hsnap, Option.isSome_none]
        simp only [Bool.false_eq_true, false_iff, not_and]
        intro _
        rintro ⟨text, htext, _, _⟩
        exact absurd htext (by simp)
      · by_cases htext : text = ""
        · simp only [processWatch, Bool.false_and, Bool.false_eq_true, if_false, herr,
            hsnap, htext, if_true, Option.isSome_none]
          simp only [Bool.false_eq_true, false_iff, not_and]
          intro _
          rintro ⟨text', htext', hne, _⟩
          rw [Option.some_inj] at htext'
          exact hne htext'.symm
        · by_cases hmk : 0 < (findKeywordsInText text ks).length
          · simp only [processWatch, Bool.false_and, Bool.false_eq_true, if_false, herr,
              hsnap, htext, hmk, if_true, if_false, Option.isSome_some, true_iff]
            exact ⟨trivial, text, rfl, htext, List.length_pos.mp hmk⟩
          · simp only [processWatch, Bool.false_and, Bool.false_eq_true, if_false, herr,
              hsnap, htext, hmk, Option.isSome_none]
            simp only [Bool.false_eq_true, false_iff, not_and]
            intro _
            rintro ⟨text', htext', _, hne⟩
            rw [Option.some_inj] at htext'
            subst htext'
            exact hmk (List.length_pos.mpr hne)

/-- C10 (witness): with `recent = "0"`, the watch last changed 25 hours ago
(which the recency filter would exclude, see C6) is still processed and
produces a report. -/
theorem recent_param_semantics_witness :
    (processWatch [kwBreach] (checkRecentParam (some "0"))
      ((1000000000 : Int) - 24 * 3600) snapAll "u" wOld).isSome = true :=
  (recent_param_semantics.2.2.2 [kwBreach] ((1000000000 : Int) - 24 * 3600) snapAll "u"
    wOld (some "0") (by decide)).mpr
    ⟨rfl, "breach here", rfl, by decide, by decide⟩

end AlertMonitoring
